import Mathlib

/-!
Shallow embedding of `minify.js` (Image-Script): a CLI batch image
compressor/converter.  File names are modelled as `List Char`; the remote
tinify service is an oracle mapping a file name to success or an error
message; Node's single-threaded event loop is modelled by a trace of
effects in which the synchronous dispatch pass (and `rl.close()`) precedes
promise completions, which may be delivered in any order.
-/

namespace ImageScript

/-- Constant `sourceFolder = "./target"` (minify.js line 11). -/
def sourceFolder : String := "./target"

/-- Constant `compressedDestinationFolder = "./Compressed"` (line 17). -/
def compressedDestinationFolder : String := "./Compressed"

/-- Constant `convertedDestinationFolder = "./Converted"` (line 18). -/
def convertedDestinationFolder : String := "./Converted"

/-- Constant `validExtensions = new Set(['.jpg', '.jpeg', '.png', '.webp'])`
(line 20), membership on the lowercased extension. -/
def validExtensions : List (List Char) :=
  [".jpg".toList, ".jpeg".toList, ".png".toList, ".webp".toList]

/-- Split a name at its last `.`: `some (before, after)` with
`name = before ++ '.' :: after` and no `.` in `after`; `none` when the name
has no dot.  Helper shared by the embeddings of `path.extname` and of the
regex `\.[^/.]+$` used on line 99. -/
def splitLastDot (cs : List Char) : Option (List Char × List Char) :=
  match cs.reverse.dropWhile (fun c => c ≠ '.'), cs.reverse.takeWhile (fun c => c ≠ '.') with
  | '.' :: rest, after => some (rest.reverse, after.reverse)
  | _, _ => none

/-- Node's `path.extname` restricted to a bare directory-entry name (no path
separators): the suffix of the name from its last `.`; empty when there is
no dot, when the only dot is the leading character (dotfiles such as
`.png`), or when the name is exactly `..`. -/
def extname (cs : List Char) : List Char :=
  match splitLastDot cs with
  | none => []
  | some (before, after) =>
    if before = [] then []
    else if before = ['.'] ∧ after = [] then []
    else '.' :: after

/-- Classifier `validExtensions.has(path.extname(file).toLowerCase())` (lines 51 and
101): the classifier deciding whether a directory entry is dispatched. -/
def isEligible (file : List Char) : Bool :=
  validExtensions.contains ((extname file).map Char.toLower)

/-- Substitution `file.replace` on the regex of line 99: replace the final
extension — a last dot followed by one or more characters none of which is
`/` or `.` — by `.format`; names without such a suffix are unchanged. -/
def replaceFinalExt (file fmt : List Char) : List Char :=
  match splitLastDot file with
  | some (before, after) =>
    if after = [] ∨ after.contains '/' then file
    else before ++ '.' :: fmt
  | none => file

/-- Normalization performed by Node `path.join` on its first argument for
the directory constants used here: a leading `./` is dropped. -/
def stripDotSlash (dir : List Char) : List Char :=
  match dir with
  | '.' :: '/' :: rest => rest
  | d => d

/-- Node `path.join(dir, file)` for the shapes used in minify.js: joins with
`/` and normalizes away a leading `./` on the directory. -/
def pathJoin (dir : String) (file : List Char) : List Char :=
  stripDotSlash dir.toList ++ '/' :: file

/-- Destination `path.join(compressedDestinationFolder, file)` (line 49). -/
def compressDest (file : List Char) : List Char :=
  pathJoin compressedDestinationFolder file

/-- Destination `path.join` of the converted folder with the substituted name
(line 99). -/
def convertDest (fmt file : List Char) : List Char :=
  pathJoin convertedDestinationFolder (replaceFinalExt file fmt)

example : isEligible "A.PNG".toList = true := by decide
example : isEligible "a.png".toList = true := by decide
example : isEligible "a.Png".toList = true := by decide
example : isEligible "a.gif".toList = false := by decide
example : isEligible "a".toList = false := by decide
example : isEligible "a.".toList = false := by decide
example : isEligible ".png".toList = false := by decide
example : isEligible "..".toList = false := by decide
example : extname "archive.tar.png".toList = ".png".toList := by decide
example : compressDest "photo.JPG".toList = "Compressed/photo.JPG".toList := by decide
example : convertDest "jpeg".toList "photo.png".toList = "Converted/photo.jpeg".toList := by decide
example : convertDest "webp".toList "archive.tar.png".toList = "Converted/archive.tar.webp".toList := by decide
example : convertDest "jpeg".toList ".png".toList = "Converted/.jpeg".toList := by decide
example : convertDest "jpeg".toList "a.".toList = "Converted/a.".toList := by decide

/-- The outcome the remote tinify service (plus the local write) delivers
for one file: `ok` when `source.toFile(destinationPath)` resolves, or the
rejection's `error.message`. -/
def Oracle : Type := List Char → Except (List Char) Unit

/-- One observable effect of a run, in event-loop order. -/
inductive Effect where
  /-- Effect of `fs.mkdirSync(d)` succeeding (with its "Created destination folder" log). -/
  | createdDir (d : String)
  /-- Effect of `fs.readdirSync(sourceFolder)`. -/
  | readDir (d : String)
  /-- a Transform Task was started: `compressImage(...)` or
  `convertAndSaveImage(...)` invoked for `src`, writing to `dest`. -/
  | started (src dest : List Char)
  /-- Log line `console.log("Skipped non-image file:", file)`. -/
  | skipLogged (f : List Char)
  /-- Call `rl.close()`. -/
  | sessionClosed
  /-- the `.then` handler: `console.log("Compressed and saved" / "Converted and saved" ...)`. -/
  | successLogged (f : List Char)
  /-- the `.catch` handler: `console.error("Error processing", file, ":", error.message)`. -/
  | failureLogged (f msg : List Char)
  /-- Log line `console.log("Invalid input. ...")`. -/
  | printedInvalid
deriving DecidableEq, Repr

/-- Lines 42–45 and 92–95: `if (!fs.existsSync(d)) { fs.mkdirSync(d); ... }`
as a trace fragment, given whether the destination directory exists. -/
def ensureDirEffects (dirExists : Bool) (d : String) : List Effect :=
  if !dirExists then [.createdDir d] else []

/-- The synchronous body of the `forEach` for one entry (lines 51–61 and
101–111): an eligible file starts a Transform Task toward `destOf file`;
an ineligible one is logged skipped. -/
def dispatchEffect (destOf : List Char → List Char) (file : List Char) : Effect :=
  if isEligible file then .started file (destOf file) else .skipLogged file

/-- The `.then`/`.catch` completion handler of one file's Transform Task
(lines 52–58 and 102–108). -/
def completionEvent (oracle : Oracle) (file : List Char) : Effect :=
  match oracle file with
  | .ok _ => .successLogged file
  | .error msg => .failureLogged file msg

/-- Function `compressImages()` (lines 41–65) as an event-loop trace: ensure the
destination directory, read the source directory (`listing` its entries),
run the synchronous dispatch pass, `rl.close()`, and then deliver the
promise completions; `σ` is the order the event loop settles the started
tasks in (any permutation of the eligible entries). -/
def compressRun (dirExists : Bool) (listing : List (List Char))
    (oracle : Oracle) (σ : List (List Char)) : List Effect :=
  ensureDirEffects dirExists compressedDestinationFolder
    ++ [.readDir sourceFolder]
    ++ listing.map (dispatchEffect compressDest)
    ++ [.sessionClosed]
    ++ σ.map (completionEvent oracle)

/-- Function `handleUserInput(format)` (lines 91–113) followed by the `rl.close()`
of `convertImageFormats` (line 87), as an event-loop trace. -/
def convertRun (fmt : List Char) (dirExists : Bool) (listing : List (List Char))
    (oracle : Oracle) (σ : List (List Char)) : List Effect :=
  ensureDirEffects dirExists convertedDestinationFolder
    ++ [.readDir sourceFolder]
    ++ listing.map (dispatchEffect (convertDest fmt))
    ++ [.sessionClosed]
    ++ σ.map (completionEvent oracle)

/-- The `switch (answer)` of `convertImageFormats` (lines 73–88): `'1'`,
`'2'`, `'3'` select the target format, anything else prints the invalid
message; `rl.close()` runs after the switch in every branch. -/
def convertMenuRun (answer2 : String) (dirExists : Bool) (listing : List (List Char))
    (oracle : Oracle) (σ : List (List Char)) : List Effect :=
  if answer2 = "1" then convertRun "png".toList dirExists listing oracle σ
  else if answer2 = "2" then convertRun "webp".toList dirExists listing oracle σ
  else if answer2 = "3" then convertRun "jpeg".toList dirExists listing oracle σ
  else [.printedInvalid, .sessionClosed]

/-- The top-level `rl.question` switch (lines 27–39): `'1'` runs
`compressImages()`, `'2'` runs `convertImageFormats()` (whose second prompt
is answered by `answer2`), anything else prints the invalid message and
closes the session. -/
def mainRun (answer answer2 : String) (dirExists : Bool) (listing : List (List Char))
    (oracle : Oracle) (σ : List (List Char)) : List Effect :=
  if answer = "1" then compressRun dirExists listing oracle σ
  else if answer = "2" then convertMenuRun answer2 dirExists listing oracle σ
  else [.printedInvalid, .sessionClosed]

/-- Call `fs.mkdirSync(d)` on its own: fails with `EEXIST` when the directory
already exists. -/
def mkdirSync (dirExists : Bool) : Except String Unit :=
  if dirExists then Except.error "EEXIST: file already exists" else Except.ok ()

/-- The guarded creation `if (!fs.existsSync(d)) fs.mkdirSync(d)` of lines
42–43 and 92–93, returning the resulting existence state of the directory
(or the error `mkdirSync` raised). -/
def ensureDir (dirExists : Bool) : Except String Bool :=
  if !dirExists then (mkdirSync dirExists).map (fun _ => true)
  else Except.ok dirExists

/-- The started Transform Tasks of a trace, as (source, destination) pairs,
in start order. -/
def startsOf (es : List Effect) : List (List Char × List Char) :=
  es.filterMap fun e =>
    match e with
    | .started s d => some (s, d)
    | _ => none

/-- Is this effect a Transform Task completion (a per-file success or
failure log)? -/
def isCompletionEffect : Effect → Bool
  | .successLogged _ => true
  | .failureLogged _ _ => true
  | _ => false

/-- The completion events of a trace, in delivery order. -/
def completionsOf (es : List Effect) : List Effect :=
  es.filter (fun e => isCompletionEffect e)

/-- Modelled from the spec's words (§4.1), for refinement comparison with
the source classifier `isEligible`, NOT from the source: "Extracts the
final extension (text after the last `.`, including the dot), lowercases
it, and tests membership in the fixed set `{.jpg, .jpeg, .png, .webp}`.
A name with no extension, or an extension outside the set, is
ineligible." -/
def specEligibleNaive (name : List Char) : Bool :=
  match splitLastDot name with
  | some (_, after) => validExtensions.contains (('.' :: after).map Char.toLower)
  | none => false

/-- The name begins with a dot and contains no other dot (a dotfile such as
`.png`): exactly the bare names Node's `path.extname` reports as having no
extension even though text follows their last dot, other than `..`. -/
def leadingDotOnly (name : List Char) : Bool :=
  match name with
  | c :: rest => c = '.' && !rest.contains '.'
  | [] => false

/-- A remote-service oracle that rejects `b.png` and resolves every other
file, as in the spec's three-file isolation scenario. -/
def oracleFailB : Oracle := fun f =>
  if f = "b.png".toList then Except.error "service rejected b.png".toList
  else Except.ok ()

theorem takeWhile_dropWhile_nodot (l rest : List Char) (h : ∀ c ∈ l, c ≠ '.') :
    (l ++ '.' :: rest).dropWhile (fun c => c ≠ '.') = '.' :: rest ∧
    (l ++ '.' :: rest).takeWhile (fun c => c ≠ '.') = l := by
  induction l with
  | nil => constructor <;> simp
  | cons x xs ih =>
    have hx : x ≠ '.' := h x (by simp)
    have hxs : ∀ c ∈ xs, c ≠ '.' := fun c hc => h c (by simp [hc])
    obtain ⟨ihd, iht⟩ := ih hxs
    constructor
    · simpa [List.dropWhile_cons, hx] using ihd
    · simpa [List.takeWhile_cons, hx] using iht

theorem splitLastDot_append (b a : List Char) (h : ∀ c ∈ a, c ≠ '.') :
    splitLastDot (b ++ '.' :: a) = some (b, a) := by
  have hrev : ∀ c ∈ a.reverse, c ≠ '.' := by simpa using h
  obtain ⟨hd, ht⟩ := takeWhile_dropWhile_nodot a.reverse b.reverse hrev
  have hr : (b ++ '.' :: a).reverse = a.reverse ++ '.' :: b.reverse := by simp
  unfold splitLastDot
  rw [hr, hd, ht]
  simp

theorem splitLastDot_eq_some {cs b a : List Char}
    (h : splitLastDot cs = some (b, a)) :
    cs = b ++ '.' :: a ∧ ∀ c ∈ a, c ≠ '.' := by
  unfold splitLastDot at h
  split at h
  next rest after hdrop =>
    injection h with h1
    injection h1 with hb ha
    subst hb; subst ha
    have hsum := List.takeWhile_append_dropWhile (fun c => decide (c ≠ '.')) cs.reverse
    rw [hdrop] at hsum
    constructor
    · calc cs = cs.reverse.reverse := (List.reverse_reverse cs).symm
        _ = (List.takeWhile (fun c => decide (c ≠ '.')) cs.reverse ++ '.' :: after).reverse := by
              rw [hsum]
        _ = after.reverse ++ '.' :: (List.takeWhile (fun c => decide (c ≠ '.')) cs.reverse).reverse := by
              simp
    · intro c hc
      have := List.mem_takeWhile_imp (List.mem_reverse.mp hc)
      simpa using this
  next => simp at h

theorem isCompletionEffect_dispatchEffect (destOf : List Char → List Char) (f : List Char) :
    isCompletionEffect (dispatchEffect destOf f) = false := by
  unfold dispatchEffect
  split <;> rfl

theorem isCompletionEffect_completionEvent (oracle : Oracle) (f : List Char) :
    isCompletionEffect (completionEvent oracle f) = true := by
  unfold completionEvent
  cases oracle f <;> rfl

theorem startsOf_append (l₁ l₂ : List Effect) :
    startsOf (l₁ ++ l₂) = startsOf l₁ ++ startsOf l₂ :=
  List.filterMap_append l₁ l₂ _

theorem startsOf_dispatchPass (destOf : List Char → List Char) (l : List (List Char)) :
    startsOf (l.map (dispatchEffect destOf))
      = (l.filter isEligible).map (fun f => (f, destOf f)) := by
  induction l with
  | nil => rfl
  | cons f l ih =>
    cases hf : isEligible f with
    | true =>
      simp only [List.map_cons, startsOf, List.filterMap_cons, dispatchEffect, hf, if_true,
        List.filter_cons]
      simpa [startsOf] using ih
    | false =>
      simp only [List.map_cons, startsOf, List.filterMap_cons, dispatchEffect, hf,
        Bool.false_eq_true, if_false, List.filter_cons]
      simpa [startsOf] using ih

theorem startsOf_completions (oracle : Oracle) (σ : List (List Char)) :
    startsOf (σ.map (completionEvent oracle)) = [] := by
  induction σ with
  | nil => rfl
  | cons f σ ih =>
    cases hf : oracle f <;>
      simpa [startsOf, completionEvent, hf, List.filterMap_cons] using ih

theorem startsOf_compressRun (dirExists : Bool) (listing : List (List Char))
    (oracle : Oracle) (σ : List (List Char)) :
    startsOf (compressRun dirExists listing oracle σ)
      = (listing.filter isEligible).map (fun f => (f, compressDest f)) := by
  unfold compressRun
  rw [startsOf_append, startsOf_append, startsOf_append, startsOf_append,
    startsOf_dispatchPass, startsOf_completions]
  cases dirExists <;> simp [ensureDirEffects, startsOf]

theorem startsOf_convertRun (fmt : List Char) (dirExists : Bool) (listing : List (List Char))
    (oracle : Oracle) (σ : List (List Char)) :
    startsOf (convertRun fmt dirExists listing oracle σ)
      = (listing.filter isEligible).map (fun f => (f, convertDest fmt f)) := by
  unfold convertRun
  rw [startsOf_append, startsOf_append, startsOf_append, startsOf_append,
    startsOf_dispatchPass, startsOf_completions]
  cases dirExists <;> simp [ensureDirEffects, startsOf]

theorem completionsOf_append (l₁ l₂ : List Effect) :
    completionsOf (l₁ ++ l₂) = completionsOf l₁ ++ completionsOf l₂ :=
  List.filter_append l₁ l₂

theorem completionsOf_dispatchPass (destOf : List Char → List Char) (l : List (List Char)) :
    completionsOf (l.map (dispatchEffect destOf)) = [] := by
  induction l with
  | nil => rfl
  | cons f l ih =>
    simp only [List.map_cons, completionsOf, List.filter_cons, isCompletionEffect_dispatchEffect]
    simpa [completionsOf] using ih

theorem completionsOf_completionEvents (oracle : Oracle) (σ : List (List Char)) :
    completionsOf (σ.map (completionEvent oracle)) = σ.map (completionEvent oracle) := by
  induction σ with
  | nil => rfl
  | cons f σ ih =>
    simp only [List.map_cons, completionsOf, List.filter_cons, isCompletionEffect_completionEvent,
      if_true]
    simpa [completionsOf] using ih

theorem completionsOf_compressRun (dirExists : Bool) (listing : List (List Char))
    (oracle : Oracle) (σ : List (List Char)) :
    completionsOf (compressRun dirExists listing oracle σ)
      = σ.map (completionEvent oracle) := by
  unfold compressRun
  rw [completionsOf_append, completionsOf_append, completionsOf_append, completionsOf_append,
    completionsOf_dispatchPass, completionsOf_completionEvents]
  cases dirExists <;> simp [ensureDirEffects, completionsOf, isCompletionEffect]

theorem completionsOf_convertRun (fmt : List Char) (dirExists : Bool)
    (listing : List (List Char)) (oracle : Oracle) (σ : List (List Char)) :
    completionsOf (convertRun fmt dirExists listing oracle σ)
      = σ.map (completionEvent oracle) := by
  unfold convertRun
  rw [completionsOf_append, completionsOf_append, completionsOf_append, completionsOf_append,
    completionsOf_dispatchPass, completionsOf_completionEvents]
  cases dirExists <;> simp [ensureDirEffects, completionsOf, isCompletionEffect]

theorem pathJoin_compressed (file : List Char) :
    pathJoin compressedDestinationFolder file = "Compressed/".toList ++ file := rfl

theorem pathJoin_converted (file : List Char) :
    pathJoin convertedDestinationFolder file = "Converted/".toList ++ file := rfl

theorem compressDest_eq (file : List Char) :
    compressDest file = "Compressed/".toList ++ file := rfl

theorem dispatchEffect_ne_createdDir (destOf : List Char → List Char) (f : List Char)
    (d : String) : dispatchEffect destOf f ≠ Effect.createdDir d := by
  unfold dispatchEffect
  split <;> simp

theorem completionEvent_ne_createdDir (oracle : Oracle) (f : List Char) (d : String) :
    completionEvent oracle f ≠ Effect.createdDir d := by
  unfold completionEvent
  cases oracle f <;> simp

theorem completion_mem_compressRun {e : Effect} (he : isCompletionEffect e = true)
    {dirExists : Bool} {listing : List (List Char)} {oracle : Oracle}
    {σ : List (List Char)} (hm : e ∈ compressRun dirExists listing oracle σ) :
    ∃ g ∈ σ, completionEvent oracle g = e := by
  have hc : e ∈ completionsOf (compressRun dirExists listing oracle σ) :=
    List.mem_filter.mpr ⟨hm, he⟩
  rw [completionsOf_compressRun] at hc
  obtain ⟨g, hg, hge⟩ := List.mem_map.mp hc
  exact ⟨g, hg, hge⟩

/-- C2 (amended): a directory entry is eligible iff the lowercased text
after its last dot, including the dot, is in `{.jpg, .jpeg, .png, .webp}`
AND the entry's last dot is not its leading character (Node's
`path.extname` treats dotfiles such as `.png` as having no extension);
each entry is dispatched to exactly one of skipped or attempted,
determined solely by this classification. -/
theorem classifier_eligibility (name : List Char) (destOf : List Char → List Char) :
    (isEligible name = true ↔
      (specEligibleNaive name = true ∧ leadingDotOnly name = false)) ∧
    (isEligible name = true →
      dispatchEffect destOf name = Effect.started name (destOf name)) ∧
    (isEligible name = false → dispatchEffect destOf name = Effect.skipLogged name) ∧
    Effect.started name (destOf name) ≠ Effect.skipLogged name := by
  have h0 : ([] : List Char) ∉ validExtensions := by decide
  refine ⟨?_, fun h => by simp [dispatchEffect, h], fun h => by simp [dispatchEffect, h],
    by simp⟩
  cases hs : splitLastDot name with
  | none =>
    simp [isEligible, extname, specEligibleNaive, hs, h0]
  | some p =>
    obtain ⟨b, a⟩ := p
    obtain ⟨hname, hna⟩ := splitLastDot_eq_some hs
    have hnd : '.' ∉ a := fun hm => (hna '.' hm) rfl
    by_cases hb : b = []
    · subst hb
      have hld : leadingDotOnly name = true := by
        rw [hname]
        simp [leadingDotOnly, hnd]
      simp [isEligible, extname, hs, h0, hld]
    · by_cases hba : b = ['.'] ∧ a = []
      · obtain ⟨hb1, ha1⟩ := hba
        subst hb1; subst ha1
        have hspec : specEligibleNaive name = false := by
          simp [specEligibleNaive, hs]
          decide
        simp [isEligible, extname, hs, hb, h0, hspec]
      · have hld : leadingDotOnly name = false := by
          cases b with
          | nil => exact absurd rfl hb
          | cons x b' =>
            rw [hname]
            by_cases hx : x = '.'
            · subst hx
              have hmem : (b' ++ '.' :: a).contains '.' = true := by simp
              simp [leadingDotOnly, hmem]
            · simp [leadingDotOnly, hx]
        have hext : extname name = '.' :: a := by
          simp [extname, hs, hb, hba]
        simp [isEligible, specEligibleNaive, hs, hext, hld]

/-- C2 counterexample: for the dotfile name `.png` the code's classifier
says ineligible although the lowercased text after the last dot, with the
dot, is `.png`, a member of the allow-list — refuting the claimed iff. -/
theorem classifier_eligibility_counterexample :
    isEligible ".png".toList = false ∧ specEligibleNaive ".png".toList = true := by
  decide

/-- C2 witness: the amended classification applied at concrete entries —
`A.PNG` is attempted, `a.gif` is skipped. -/
theorem classifier_eligibility_witness :
    dispatchEffect compressDest "A.PNG".toList
      = Effect.started "A.PNG".toList (compressDest "A.PNG".toList) ∧
    dispatchEffect compressDest "a.gif".toList = Effect.skipLogged "a.gif".toList :=
  ⟨(classifier_eligibility "A.PNG".toList compressDest).2.1 (by decide),
   (classifier_eligibility "a.gif".toList compressDest).2.2.1 (by decide)⟩

/-- C9: a file name that begins with a dot and contains no other dot (such
as `.png`) is ineligible — `path.extname` yields no extension for it — so
it is logged skipped and never yields a Transform outcome in any batch. -/
theorem leading_dot_names_ineligible (rest : List Char) (h : rest.contains '.' = false)
    (destOf : List Char → List Char) (dirExists : Bool)
    (listing σ : List (List Char)) (oracle : Oracle)
    (hσ : σ.Perm (listing.filter isEligible)) :
    isEligible ('.' :: rest) = false ∧
    extname ('.' :: rest) = [] ∧
    dispatchEffect destOf ('.' :: rest) = Effect.skipLogged ('.' :: rest) ∧
    (∀ m, Effect.successLogged ('.' :: rest) ∉ compressRun dirExists listing oracle σ ∧
      Effect.failureLogged ('.' :: rest) m ∉ compressRun dirExists listing oracle σ) := by
  have hnd : ∀ c ∈ rest, c ≠ '.' := by
    intro c hc he
    subst he
    simp at h
    exact h hc
  have hsplit : splitLastDot ('.' :: rest) = some ([], rest) :=
    splitLastDot_append [] rest hnd
  have hext : extname ('.' :: rest) = [] := by
    simp [extname, hsplit]
  have hinel : isEligible ('.' :: rest) = false := by
    simp [isEligible, hext]
    decide
  have hout : ∀ e : Effect, isCompletionEffect e = true →
      (∀ g, completionEvent oracle g = e → g = '.' :: rest) →
      e ∉ compressRun dirExists listing oracle σ := by
    intro e hce hge hm
    obtain ⟨g, hgσ, hgev⟩ := completion_mem_compressRun hce hm
    have hg : g = '.' :: rest := hge g hgev
    subst hg
    have hmf : ('.' :: rest) ∈ listing.filter isEligible := hσ.mem_iff.mp hgσ
    have hel : isEligible ('.' :: rest) = true := by
      have := List.mem_filter.mp hmf
      simpa using this.2
    rw [hinel] at hel
    exact Bool.false_ne_true hel
  refine ⟨hinel, hext, by simp [dispatchEffect, hinel], ?_⟩
  intro m
  constructor
  · refine hout _ rfl ?_
    intro g hg
    unfold completionEvent at hg
    cases ho : oracle g <;> rw [ho] at hg <;> simp_all
  · refine hout _ rfl ?_
    intro g hg
    unfold completionEvent at hg
    cases ho : oracle g <;> rw [ho] at hg <;> simp_all

/-- C9 witness: the dotfile `.png` in a concrete batch is ineligible and
produces no success outcome. -/
theorem leading_dot_names_ineligible_witness :
    isEligible ".png".toList = false ∧
    Effect.successLogged ".png".toList ∉
      compressRun true [".png".toList, "x.jpg".toList] (fun _ => Except.ok ())
        ["x.jpg".toList] := by
  have h := leading_dot_names_ineligible "png".toList (by decide) compressDest true
    [".png".toList, "x.jpg".toList] ["x.jpg".toList] (fun _ => Except.ok ())
    (by decide)
  exact ⟨h.1, (h.2.2.2 []).1⟩

/-- C3: convert-mode destination naming — for a source name with a final
extension (a last dot followed by at least one character) and a target
format among png, webp, jpeg, the destination is the source name with only
that final extension replaced by the dot plus the lowercase format, under
Converted/. -/
theorem convert_dest_naming (name before after fmt : List Char)
    (hsplit : splitLastDot name = some (before, after)) (hne : after ≠ [])
    (hslash : after.contains '/' = false)
    (hfmt : fmt = "png".toList ∨ fmt = "webp".toList ∨ fmt = "jpeg".toList) :
    convertDest fmt name = "Converted/".toList ++ before ++ '.' :: fmt ∧
    name = before ++ '.' :: after := by
  obtain ⟨hname, _⟩ := splitLastDot_eq_some hsplit
  have hnsl : '/' ∉ after := by simpa using hslash
  have hrep : replaceFinalExt name fmt = before ++ '.' :: fmt := by
    unfold replaceFinalExt
    rw [hsplit]
    simp [hne, hnsl]
  constructor
  · unfold convertDest
    rw [hrep, pathJoin_converted]
    simp
  · exact hname

/-- C3 witness: concrete conversions — `photo.png` with target jpeg goes to
`Converted/photo.jpeg`, `archive.tar.png` with target webp goes to
`Converted/archive.tar.webp`. -/
theorem convert_dest_naming_witness :
    convertDest "jpeg".toList "photo.png".toList = "Converted/photo.jpeg".toList ∧
    convertDest "webp".toList "archive.tar.png".toList
      = "Converted/archive.tar.webp".toList := by
  have h1 := convert_dest_naming "photo.png".toList "photo".toList "png".toList
    "jpeg".toList (by decide) (by decide) (by decide) (Or.inr (Or.inr rfl))
  have h2 := convert_dest_naming "archive.tar.png".toList "archive.tar".toList
    "png".toList "webp".toList (by decide) (by decide) (by decide) (Or.inr (Or.inl rfl))
  constructor
  · rw [h1.1]; decide
  · rw [h2.1]; decide

/-- C6: compress-mode destination naming — every eligible source name maps
to exactly the same file name under Compressed/, case and extension
preserved, and that is the destination its Transform Task is started
with. -/
theorem compress_dest_naming (name : List Char) (h : isEligible name = true) :
    compressDest name = "Compressed/".toList ++ name ∧
    dispatchEffect compressDest name
      = Effect.started name ("Compressed/".toList ++ name) := by
  refine ⟨compressDest_eq name, ?_⟩
  simp [dispatchEffect, h, compressDest_eq]

/-- C6 witness: `photo.JPG` is eligible and its destination is
`Compressed/photo.JPG`. -/
theorem compress_dest_naming_witness :
    compressDest "photo.JPG".toList = "Compressed/photo.JPG".toList := by
  rw [(compress_dest_naming "photo.JPG".toList (by decide)).1]
  decide

/-- C10: the convert-mode destination mapping is not injective — the
distinct eligible sources `a.png` and `a.jpg` with target jpeg resolve to
the identical destination `Converted/a.jpeg`, and in one batch both tasks
are started toward that same path. -/
theorem convert_dest_collision :
    "a.png".toList ≠ "a.jpg".toList ∧
    isEligible "a.png".toList = true ∧
    isEligible "a.jpg".toList = true ∧
    convertDest "jpeg".toList "a.png".toList = convertDest "jpeg".toList "a.jpg".toList ∧
    startsOf (convertRun "jpeg".toList false ["a.png".toList, "a.jpg".toList]
        (fun _ => Except.ok ()) ["a.png".toList, "a.jpg".toList])
      = [("a.png".toList, "Converted/a.jpeg".toList),
         ("a.jpg".toList, "Converted/a.jpeg".toList)] := by
  decide

/-- C5: output-directory creation is guarded by the existence check, so it
never raises a directory-exists error: the guarded create always succeeds,
leaves the directory existing, is a no-op on a second run against the same
destination, and emits no mkdir call when the directory is present. -/
theorem dir_creation_idempotent (dirExists : Bool) :
    ensureDir dirExists = Except.ok true ∧
    (∀ s, ensureDir dirExists = Except.ok s → ensureDir s = Except.ok s) ∧
    ensureDirEffects true compressedDestinationFolder = [] ∧
    ensureDirEffects true convertedDestinationFolder = [] := by
  have h1 : ensureDir dirExists = Except.ok true := by
    cases dirExists <;> rfl
  refine ⟨h1, ?_, rfl, rfl⟩
  intro s hs
  rw [h1] at hs
  injection hs with hs1
  subst hs1
  rfl

/-- C5 witness: both initial states succeed; in particular a pre-existing
directory raises no error. -/
theorem dir_creation_idempotent_witness :
    ensureDir true = Except.ok true ∧ ensureDir false = Except.ok true :=
  ⟨(dir_creation_idempotent true).1, (dir_creation_idempotent false).1⟩

/-- C7: any first-prompt answer other than "1" or "2" produces only the
invalid-input message and the session close — the source directory is not
read, no output directory is created, and no Transform Task is started. -/
theorem invalid_menu_inert (answer answer2 : String) (dirExists : Bool)
    (listing : List (List Char)) (oracle : Oracle) (σ : List (List Char))
    (h1 : answer ≠ "1") (h2 : answer ≠ "2") :
    mainRun answer answer2 dirExists listing oracle σ
      = [Effect.printedInvalid, Effect.sessionClosed] ∧
    (∀ d, Effect.readDir d ∉ mainRun answer answer2 dirExists listing oracle σ) ∧
    (∀ d, Effect.createdDir d ∉ mainRun answer answer2 dirExists listing oracle σ) ∧
    (∀ s t, Effect.started s t ∉ mainRun answer answer2 dirExists listing oracle σ) := by
  have hm : mainRun answer answer2 dirExists listing oracle σ
      = [Effect.printedInvalid, Effect.sessionClosed] := by
    unfold mainRun
    rw [if_neg h1, if_neg h2]
  refine ⟨hm, ?_, ?_, ?_⟩
  · intro d
    rw [hm]
    simp
  · intro d
    rw [hm]
    simp
  · intro s t
    rw [hm]
    simp

/-- C7 witness: the concrete invalid selection "3" is inert. -/
theorem invalid_menu_inert_witness :
    mainRun "3" "1" false ["a.png".toList] (fun _ => Except.ok ()) ["a.png".toList]
      = [Effect.printedInvalid, Effect.sessionClosed] :=
  (invalid_menu_inert "3" "1" false ["a.png".toList] (fun _ => Except.ok ())
    ["a.png".toList] (by decide) (by decide)).1

/-- C4 counterexample: a non-empty source directory whose single entry
`a.txt` is ineligible still gets `Compressed/` created (the guard block
runs unconditionally at the start of the batch), refuting "zero output
directories created". -/
theorem lazy_dir_creation_counterexample :
    ["a.txt".toList] ≠ ([] : List (List Char)) ∧
    List.filter isEligible ["a.txt".toList] = [] ∧
    Effect.createdDir compressedDestinationFolder
      ∈ compressRun false ["a.txt".toList] (fun _ => Except.ok ()) [] := by
  decide

/-- C4 (amended): over a source directory with no eligible entry the batch
completes with zero Transform Tasks started and zero outcomes delivered,
but the selected mode's output directory is created unconditionally at the
start of the batch when absent — eagerly, before the directory is even
read — and is not created when it already exists. -/
theorem eager_dir_creation (listing σ : List (List Char)) (oracle : Oracle)
    (fmt : List Char) (h : listing.filter isEligible = [])
    (hσ : σ.Perm (listing.filter isEligible)) :
    startsOf (compressRun false listing oracle σ) = [] ∧
    completionsOf (compressRun false listing oracle σ) = [] ∧
    (compressRun false listing oracle σ).head?
      = some (Effect.createdDir compressedDestinationFolder) ∧
    startsOf (convertRun fmt false listing oracle σ) = [] ∧
    (convertRun fmt false listing oracle σ).head?
      = some (Effect.createdDir convertedDestinationFolder) ∧
    (∀ d, Effect.createdDir d ∉ compressRun true listing oracle σ) ∧
    (∀ d, Effect.createdDir d ∉ convertRun fmt true listing oracle σ) := by
  have hσnil : σ = [] := (h ▸ hσ).eq_nil
  subst hσnil
  refine ⟨?_, ?_, ?_, ?_, ?_, ?_, ?_⟩
  · rw [startsOf_compressRun, h]
    rfl
  · rw [completionsOf_compressRun]
    rfl
  · simp [compressRun, ensureDirEffects]
  · rw [startsOf_convertRun, h]
    rfl
  · simp [convertRun, ensureDirEffects]
  · intro d
    simp [compressRun, ensureDirEffects, dispatchEffect_ne_createdDir]
  · intro d
    simp [convertRun, ensureDirEffects, dispatchEffect_ne_createdDir]

/-- C4 witness: a batch over the all-ineligible listing `[a.txt]`. -/
theorem eager_dir_creation_witness :
    startsOf (compressRun false ["a.txt".toList] (fun _ => Except.ok ()) []) = [] ∧
    (compressRun false ["a.txt".toList] (fun _ => Except.ok ()) []).head?
      = some (Effect.createdDir compressedDestinationFolder) := by
  have h := eager_dir_creation ["a.txt".toList] [] (fun _ => Except.ok ())
    "jpeg".toList (by decide) (by decide)
  exact ⟨h.1, h.2.2.1⟩

/-- C8: the Dispatcher starts one Transform Task per eligible file in a
single synchronous pass in listing order, the session close precedes every
task completion (nothing blocks awaiting the tasks), and the completions
may settle in any permutation of the eligible files. -/
theorem fire_and_forget_dispatch (dirExists : Bool) (listing σ : List (List Char))
    (oracle : Oracle) (hσ : σ.Perm (listing.filter isEligible)) :
    startsOf (compressRun dirExists listing oracle σ)
      = (listing.filter isEligible).map (fun f => (f, compressDest f)) ∧
    σ.length = (listing.filter isEligible).length ∧
    (∃ pre, compressRun dirExists listing oracle σ
        = pre ++ Effect.sessionClosed :: σ.map (completionEvent oracle) ∧
      ∀ x ∈ pre, isCompletionEffect x = false) ∧
    completionsOf (compressRun dirExists listing oracle σ)
      = σ.map (completionEvent oracle) := by
  refine ⟨startsOf_compressRun dirExists listing oracle σ, hσ.length_eq, ?_,
    completionsOf_compressRun dirExists listing oracle σ⟩
  refine ⟨ensureDirEffects dirExists compressedDestinationFolder
      ++ [Effect.readDir sourceFolder] ++ listing.map (dispatchEffect compressDest),
    ?_, ?_⟩
  · unfold compressRun
    simp [List.append_assoc]
  · intro x hx
    rcases List.mem_append.mp hx with hx | hx
    · rcases List.mem_append.mp hx with hx | hx
      · cases dirExists with
        | false =>
          simp [ensureDirEffects] at hx
          subst hx
          rfl
        | true => simp [ensureDirEffects] at hx
      · simp at hx
        subst hx
        rfl
    · obtain ⟨f, _, rfl⟩ := List.mem_map.mp hx
      exact isCompletionEffect_dispatchEffect compressDest f

/-- C8 witness: a three-entry listing with one ineligible file; the
completions settle in an order different from the listing order. -/
theorem fire_and_forget_dispatch_witness :
    startsOf (compressRun true ["a.png".toList, "b.txt".toList, "c.png".toList]
        (fun _ => Except.ok ()) ["c.png".toList, "a.png".toList])
      = [("a.png".toList, "Compressed/a.png".toList),
         ("c.png".toList, "Compressed/c.png".toList)] := by
  rw [(fire_and_forget_dispatch true ["a.png".toList, "b.txt".toList, "c.png".toList]
    ["c.png".toList, "a.png".toList] (fun _ => Except.ok ()) (by decide)).1]
  decide

/-- C1: failure isolation — in every batch and for every assignment of
per-file remote outcomes, each eligible file's own outcome event (success,
or failure logged with its name and message) appears in the run, and that
event depends only on that file's own remote outcome, not on any other
file's. -/
theorem transform_failure_isolation (dirExists : Bool) (fmt : List Char)
    (listing σ : List (List Char)) (oracle oracle' : Oracle)
    (hσ : σ.Perm (listing.filter isEligible))
    (f : List Char) (hf : f ∈ listing) (he : isEligible f = true) :
    completionEvent oracle f ∈ compressRun dirExists listing oracle σ ∧
    completionEvent oracle f ∈ convertRun fmt dirExists listing oracle σ ∧
    (oracle' f = oracle f → completionEvent oracle' f = completionEvent oracle f) ∧
    (∀ m, oracle f = Except.error m →
      completionEvent oracle f = Effect.failureLogged f m) ∧
    (oracle f = Except.ok () → completionEvent oracle f = Effect.successLogged f) := by
  have hfσ : f ∈ σ := hσ.mem_iff.mpr (List.mem_filter.mpr ⟨hf, by simpa using he⟩)
  have hcm : completionEvent oracle f ∈ σ.map (completionEvent oracle) :=
    List.mem_map_of_mem (completionEvent oracle) hfσ
  refine ⟨?_, ?_, ?_, ?_, ?_⟩
  · unfold compressRun
    exact List.mem_append_right _ hcm
  · unfold convertRun
    exact List.mem_append_right _ hcm
  · intro h
    unfold completionEvent
    rw [h]
  · intro m h
    unfold completionEvent
    rw [h]
  · intro h
    unfold completionEvent
    rw [h]

/-- C1 witness: the spec's three-file scenario — the service fails for
`b.png` and succeeds for `a.png` and `c.png`; the run reports success for
a, failure (with message) for b, success for c. -/
theorem transform_failure_isolation_witness :
    completionEvent oracleFailB "a.png".toList
      ∈ compressRun false ["a.png".toList, "b.png".toList, "c.png".toList] oracleFailB
          ["a.png".toList, "b.png".toList, "c.png".toList] ∧
    compressRun false ["a.png".toList, "b.png".toList, "c.png".toList] oracleFailB
        ["a.png".toList, "b.png".toList, "c.png".toList]
      = [Effect.createdDir compressedDestinationFolder,
         Effect.readDir sourceFolder,
         Effect.started "a.png".toList "Compressed/a.png".toList,
         Effect.started "b.png".toList "Compressed/b.png".toList,
         Effect.started "c.png".toList "Compressed/c.png".toList,
         Effect.sessionClosed,
         Effect.successLogged "a.png".toList,
         Effect.failureLogged "b.png".toList "service rejected b.png".toList,
         Effect.successLogged "c.png".toList] := by
  constructor
  · exact (transform_failure_isolation false "jpeg".toList
      ["a.png".toList, "b.png".toList, "c.png".toList]
      ["a.png".toList, "b.png".toList, "c.png".toList] oracleFailB oracleFailB
      (by decide) "a.png".toList (by decide) (by decide)).1
  · decide

end ImageScript
